import Mathlib

/-!
Shallow embedding of the ingestion service core
(`src/services/ingestion/{models,config,db,ingest_service,metrics}.py`)
of the smart-stake repository, together with theorems settling the
frozen specification claims.

Conventions of the embedding:
* Python `datetime` values are modelled as rationals (seconds since an
  arbitrary epoch); `timedelta(hours=h)` is `h * 3600`, and
  `timedelta(seconds=s)` is `s`.
* Python `float` amounts are modelled as rationals: the operations the
  code performs on them (`abs`, negation, `min`, `max`, comparison,
  multiplication by constants) are exact.
* Python `dict` objects are modelled as association lists with
  insert-or-replace update (`dictSet`) and lookup (`dictGet`), which is
  observationally the Python dict behaviour: at most one value per key,
  replacement on collision, insertion order kept otherwise.
* `random.uniform (0, base)` is modelled by an explicit parameter `u`
  ranging over `[0, base]`.
-/

namespace Ingest

/-- `Provenance` of `models.py`: provider, method and request id. -/
structure Provenance where
  provider : String
  method : String
  request_id : String
deriving DecidableEq, Repr

/-- Stand-in for a raw JSON payload (`Dict[str, Any]` in the source):
the core never inspects it, only copies it, so any carrier type with
decidable equality is faithful. -/
abbrev RawPayload : Type := List (String × String)

/-- `TransferEvent` of `models.py`: a normalized transfer record. -/
structure TransferEvent where
  ts : ℚ
  tx_hash : String
  from_addr : String
  to_addr : String
  chain : String
  token : String
  amount : ℚ
  usd_value : ℚ
  direction : Option String := none
  venue_hint : Option String := none
  is_cex : Bool := false
  provenance : Option Provenance := none
  raw : Option RawPayload := none
deriving DecidableEq, Repr

/-- `BalanceUpdate` of `models.py`: a derived balance-delta record. -/
structure BalanceUpdate where
  ts : ℚ
  address : String
  chain : String
  token : String
  amount : ℚ
  usd_value : ℚ
  provenance : Option Provenance := none
  raw : Option RawPayload := none
deriving DecidableEq, Repr

/-- `Config` of `config.py` (values only; loading is external). -/
structure Config where
  database_url : String
  chains : List String
  primary_provider : String
  alchemy_api_key : Option String
  moralis_api_key : Option String
  stream_lag_seconds : ℚ
  backfill_window_hours : ℚ
  retry_max_attempts : ℕ
  retry_base_seconds : ℚ
  retry_max_seconds : ℚ
  rate_limit_per_sec : ℕ
deriving DecidableEq, Repr

/-- `Config.backfill_window` of `config.py`: `timedelta(hours=h)`,
i.e. `h * 3600` seconds in this embedding. -/
def Config.backfill_window (cfg : Config) : ℚ :=
  cfg.backfill_window_hours * 3600

/-- `_jitter_delay` of `ingest_service.py` lines 21-23 with the sampled
jitter `random.uniform(0, base)` made an explicit argument `u`:
`min(max_seconds, base * 2 ** attempt + u)`. -/
def jitterDelay (base : ℚ) (attempt : ℕ) (max_seconds : ℚ) (u : ℚ) : ℚ :=
  min max_seconds (base * 2 ^ attempt + u)

/-- State of the retry loop in `_stream_with_failover`
(`ingest_service.py` lines 64-81): the locals `primary`, `fallback`
and `attempt`. -/
structure FailState (α : Type) where
  primary : α
  fallback : α
  attempt : ℕ
deriving DecidableEq, Repr

/-- One open failure of the retry loop of `_stream_with_failover`
(lines 73-81): increment `attempt`; once it reaches
`retry_max_attempts`, swap primary and fallback and reset `attempt`
to 0.  The loop is `while True`: a failure always leads to another
attempt, so this step function is total. -/
def failStep (retry_max_attempts : ℕ) (s : FailState α) : FailState α :=
  let attempt := s.attempt + 1
  if retry_max_attempts ≤ attempt then
    { primary := s.fallback, fallback := s.primary, attempt := 0 }
  else
    { s with attempt := attempt }

/-- `n` consecutive open failures of the retry loop. -/
def failLoopSteps (retry_max_attempts : ℕ) : ℕ → FailState α → FailState α
  | 0, s => s
  | n + 1, s => failLoopSteps retry_max_attempts n (failStep retry_max_attempts s)

/-! ### Python dict model -/

/-- Lookup in a Python dict modelled as an association list. -/
def dictGet : List (String × α) → String → Option α
  | [], _ => none
  | (k', v) :: rest, k => if k' = k then some v else dictGet rest k

/-- `d[k] = v` on a Python dict: replace in place when the key exists,
append otherwise. -/
def dictSet : List (String × α) → String → α → List (String × α)
  | [], k, v => [(k, v)]
  | (k', v') :: rest, k, v =>
    if k' = k then (k, v) :: rest else (k', v') :: dictSet rest k v

/-! ### Identity keys -/

/-- `_event_key` of `ingest_service.py` lines 26-27: the in-process
admission-cache key, `f"{chain}:{tx_hash}:{from_addr}:{to_addr}".lower()`. -/
def eventKey (e : TransferEvent) : String :=
  (e.chain ++ ":" ++ e.tx_hash ++ ":" ++ e.from_addr ++ ":" ++ e.to_addr).toLower

/-- `InMemoryDB._tkey` of `db.py` lines 31-41: the store-level transfer
key.  The source feeds `chain`, `tx_hash`, `from_addr`, `to_addr`
separated by `"|"` into SHA-256 and keys by the hex digest; this
embedding keys by the hash pre-image itself (the digest is treated as
injective), and notably the source applies no case normalisation here. -/
def tkey (e : TransferEvent) : String :=
  e.chain ++ "|" ++ e.tx_hash ++ "|" ++ e.from_addr ++ "|" ++ e.to_addr

/-- `InMemoryDB._bkey` of `db.py` lines 43-45:
`f"{chain}:{address}:{token}".lower()`. -/
def bkey (b : BalanceUpdate) : String :=
  (b.chain ++ ":" ++ b.address ++ ":" ++ b.token).toLower

/-! ### InMemoryDB -/

/-- `InMemoryDB` of `db.py`: dicts for transfers, balances and the
latest transfer timestamp per chain (`upsert_entity` and its `entities`
dict are untouched by the ingestion core and elided). -/
structure InMemoryDB where
  transfers : List (String × TransferEvent) := []
  balances : List (String × BalanceUpdate) := []
  latestTs : List (String × ℚ) := []
deriving DecidableEq, Repr

/-- `InMemoryDB.insert_transfer` of `db.py` lines 60-68: return `false`
when the key is present; otherwise store the event and advance the
chain's latest timestamp when the event's is newer. -/
def InMemoryDB.insert_transfer (db : InMemoryDB) (e : TransferEvent) :
    Bool × InMemoryDB :=
  let key := tkey e
  if (dictGet db.transfers key).isSome then
    (false, db)
  else
    let latestTs :=
      match dictGet db.latestTs e.chain with
      | none => dictSet db.latestTs e.chain e.ts
      | some prev => if prev < e.ts then dictSet db.latestTs e.chain e.ts else db.latestTs
    (true, { db with transfers := dictSet db.transfers key e, latestTs := latestTs })

/-- `InMemoryDB.upsert_balance` of `db.py` lines 70-71:
`self.balances[self._bkey(b)] = b`. -/
def InMemoryDB.upsert_balance (db : InMemoryDB) (b : BalanceUpdate) : InMemoryDB :=
  { db with balances := dictSet db.balances (bkey b) b }

/-- `InMemoryDB.latest_transfer_ts` of `db.py` lines 47-48. -/
def InMemoryDB.latest_transfer_ts (db : InMemoryDB) (chain : String) : Option ℚ :=
  dictGet db.latestTs chain

/-! ### Metrics -/

/-- `Metrics` of `metrics.py`: counters keyed by metric name
(`inc` adds under the name only; labels are just logged), and the
sequence of `observe` calls, newest first. -/
structure Metrics where
  counters : List (String × ℕ) := []
  observations : List (String × ℚ) := []
deriving DecidableEq, Repr

/-- Current value of a counter (`self._counters.get(name, 0)`). -/
def Metrics.counter (m : Metrics) (name : String) : ℕ :=
  (dictGet m.counters name).getD 0

/-- `Metrics.inc` of `metrics.py` lines 15-17. -/
def Metrics.inc (m : Metrics) (name : String) (value : ℕ) : Metrics :=
  { m with counters := dictSet m.counters name (m.counter name + value) }

/-- `Metrics.observe` of `metrics.py` lines 19-20 (it only logs; the
embedding records the observation so claims can refer to it). -/
def Metrics.observe (m : Metrics) (name : String) (value : ℚ) : Metrics :=
  { m with observations := (name, value) :: m.observations }

/-! ### Store interface and the admission pipeline -/

/-- A raised store exception (Python `Exception`, opaque to the core). -/
inductive StoreErr where
  | failure (msg : String)
deriving DecidableEq, Repr

/-- A raised provider exception. -/
inductive ProvErr where
  | failure (msg : String)
deriving DecidableEq, Repr

/-- The `DB` protocol of `db.py` as used by the ingestion core, over an
abstract store state `σ`; `insert_transfer` and `upsert_balance` may
raise.  An `Except.error` leaves the store state unchanged. -/
structure StoreOps (σ : Type) where
  insert_transfer : σ → TransferEvent → Except StoreErr (Bool × σ)
  upsert_balance : σ → BalanceUpdate → Except StoreErr σ
  latest_transfer_ts : σ → String → Option ℚ

/-- The never-raising `InMemoryDB` instantiation of the store
interface. -/
def memOps : StoreOps InMemoryDB where
  insert_transfer db e := .ok (db.insert_transfer e)
  upsert_balance db b := .ok (db.upsert_balance b)
  latest_transfer_ts db chain := db.latest_transfer_ts chain

/-- One store call, recorded in an observation trace so that claims can
speak about which writes the pipeline performed. -/
inductive StoreCall where
  | insertT (e : TransferEvent)
  | upsertB (b : BalanceUpdate)
deriving DecidableEq, Repr

/-- The mutable service state touched by the admission pipeline:
`_seen_cache`, the store, and the metrics sink; `calls` is the trace of
store calls issued and `requests` the trace of `rest_backfill`
windows requested, both newest first (observational instrumentation,
not source state).  The rate-limiter token state (`_rate_tokens`,
`_last_refill`) is only read and written by `_rate_limit`, which is
modelled separately below; it does not affect the data path. -/
structure SvcState (σ : Type) where
  seen : List String := []
  db : σ
  metrics : Metrics := {}
  calls : List StoreCall := []
  requests : List (ℚ × ℚ) := []
deriving DecidableEq, Repr

/-- Outcome of a pipeline step on the service state: Python mutates the
state in place, so a raised exception still leaves the mutations made
before the raise — the error case therefore carries the state too. -/
inductive HRes (σ : Type) where
  | ok (st : SvcState σ)
  | err (e : StoreErr) (st : SvcState σ)
deriving DecidableEq, Repr

/-- The service state after a pipeline step, raised or not. -/
def HRes.state : HRes σ → SvcState σ
  | .ok st => st
  | .err _ st => st

/-- Python `int()` on a rational: truncation toward zero (written with
the executable `Rat.floor`, which agrees with `Int.floor` on `ℚ`). -/
def pyInt (q : ℚ) : ℤ :=
  if q < 0 then -(Rat.floor (-q)) else Rat.floor q

/-- The ingestion-lag computation of `ingest_service.py` line 104:
`max(0, int((now - e.ts).total_seconds() * 1000))`. -/
def lagMs (now ts : ℚ) : ℤ :=
  max 0 (pyInt ((now - ts) * 1000))

/-- The debit leg built at `ingest_service.py` lines 92-95:
`amount=-abs(e.amount)`, `usd_value=-abs(e.usd_value)` at `from_addr`. -/
def debitLeg (e : TransferEvent) : BalanceUpdate :=
  { ts := e.ts, address := e.from_addr, chain := e.chain, token := e.token,
    amount := -|e.amount|, usd_value := -|e.usd_value|,
    provenance := e.provenance, raw := e.raw }

/-- The credit leg built at `ingest_service.py` lines 96-99:
`amount=abs(e.amount)`, `usd_value=abs(e.usd_value)` at `to_addr`. -/
def creditLeg (e : TransferEvent) : BalanceUpdate :=
  { ts := e.ts, address := e.to_addr, chain := e.chain, token := e.token,
    amount := |e.amount|, usd_value := |e.usd_value|,
    provenance := e.provenance, raw := e.raw }

/-- Lines 103-105 of `ingest_service.py`: increment `events_in` and
observe the clamped ingestion lag (run on every path that reaches the
end of `_handle_event` without raising). -/
def finishMetrics (now : ℚ) (e : TransferEvent) (st : SvcState σ) : SvcState σ :=
  let m := st.metrics.inc "events_in" 1
  { st with metrics := m.observe "lag_ms" ((lagMs now e.ts : ℤ) : ℚ) }

/-- `IngestionService._handle_event` of `ingest_service.py` lines
83-105.  The `await self._rate_limit()` on line 88 only mutates the
token state and suspends (it never raises and touches no field used
here); it is modelled separately as `acquire`. -/
def handleEvent (ops : StoreOps σ) (now : ℚ) (st : SvcState σ)
    (e : TransferEvent) : HRes σ :=
  let key := eventKey e
  if key ∈ st.seen then .ok st
  else
    let st1 : SvcState σ :=
      { st with seen := key :: st.seen, calls := .insertT e :: st.calls }
    match ops.insert_transfer st1.db e with
    | .error er => .err er st1
    | .ok (inserted, db1) =>
      let st2 := { st1 with db := db1 }
      if inserted then
        match ops.upsert_balance st2.db (debitLeg e) with
        | .error er => .err er { st2 with calls := .upsertB (debitLeg e) :: st2.calls }
        | .ok db2 =>
          let st3 := { st2 with db := db2, calls := .upsertB (debitLeg e) :: st2.calls }
          match ops.upsert_balance st3.db (creditLeg e) with
          | .error er => .err er { st3 with calls := .upsertB (creditLeg e) :: st3.calls }
          | .ok db3 =>
            let st4 :=
              { st3 with
                  db := db3
                  calls := .upsertB (creditLeg e) :: st3.calls
                  metrics := st3.metrics.inc "events_out" 1 }
            .ok (finishMetrics now e st4)
      else
        .ok (finishMetrics now e st2)

/-- The per-event loops that drive `_handle_event`: the backfill loop of
`ingest_service.py` lines 118-119 and the streaming loop of lines
130-131.  Neither catches exceptions itself, so a raise aborts the loop
and propagates. -/
def feedEvents (ops : StoreOps σ) (now : ℚ) :
    SvcState σ → List TransferEvent → HRes σ
  | st, [] => .ok st
  | st, e :: rest =>
    match handleEvent ops now st e with
    | .ok st' => feedEvents ops now st' rest
    | .err er st' => .err er st'

/-! ### Backfill planner -/

/-- The `horizon` local of `_backfill` (`ingest_service.py` line 110):
`now - timedelta(seconds=stream_lag_seconds)`. -/
def planHorizon (now lag : ℚ) : ℚ :=
  now - lag

/-- The `start` local of `_backfill` (line 111):
`max(last or (now - window), now - window)`; a `datetime` is always
truthy, so `last or x` is `last.getD x`. -/
def planStart (now window : ℚ) (last : Option ℚ) : ℚ :=
  max (last.getD (now - window)) (now - window)

/-- Lines 108-113 of `_backfill`: the computed window, or `none` when
`start >= horizon` (immediate return, no provider call). -/
def backfillPlan (now lag window : ℚ) (last : Option ℚ) : Option (ℚ × ℚ) :=
  let horizon := planHorizon now lag
  let start := planStart now window last
  if start ≥ horizon then none else some (start, horizon)

/-- A provider's `rest_backfill(chain, start, end)`, which may raise. -/
def BackfillProvider : Type :=
  String → ℚ → ℚ → Except ProvErr (List TransferEvent)

/-- The provider loop of `_backfill` (lines 115-125): for each provider
in order, one attempt: call `rest_backfill` over the window and feed
every returned event through `_handle_event`; the surrounding
`try/except Exception: continue` catches ANY exception raised inside
the `try` block — including one raised by `_handle_event` — logs it and
moves on to the next provider; a raise-free pass returns.  Each
attempted call is recorded in `requests`. -/
def tryProviders (ops : StoreOps σ) (now start horizon : ℚ) (chain : String) :
    SvcState σ → List BackfillProvider → SvcState σ
  | st, [] => st
  | st, p :: rest =>
    let st1 := { st with requests := (start, horizon) :: st.requests }
    match p chain start horizon with
    | .error _ => tryProviders ops now start horizon chain st1 rest
    | .ok events =>
      match feedEvents ops now st1 events with
      | .ok st2 => st2
      | .err _ st2 => tryProviders ops now start horizon chain st2 rest

/-- `IngestionService._backfill` of `ingest_service.py` lines 107-125
for one chain: read the store's latest timestamp, compute the window,
return immediately when `start >= horizon`, otherwise run the provider
loop (primary first, then fallback, as a list). -/
def backfillRun (ops : StoreOps σ) (provs : List BackfillProvider)
    (chain : String) (now lag window : ℚ) (st : SvcState σ) : SvcState σ :=
  let last := ops.latest_transfer_ts st.db chain
  match backfillPlan now lag window last with
  | none => st
  | some (start, horizon) => tryProviders ops now start horizon chain st provs

/-! ### Rate limiter -/

/-- The token-bucket state of `IngestionService`: `_rate_tokens` and
`_last_refill` (`ingest_service.py` lines 43-44; initially
`rate_limit_per_sec` tokens). -/
structure RLState where
  tokens : ℕ
  lastRefill : ℚ
deriving DecidableEq, Repr

/-- The refill step of `_rate_limit` (lines 47-52):
`refill = int(elapsed * rate_limit_per_sec)`; when positive, set
`tokens = min(rate_limit_per_sec, tokens + refill)` and move
`_last_refill` to `now`. -/
def refillState (cap : ℕ) (s : RLState) (now : ℚ) : RLState :=
  let refill := pyInt ((now - s.lastRefill) * cap)
  if 0 < refill then
    { tokens := min cap (s.tokens + refill.toNat), lastRefill := now }
  else s

/-- Outcome of one pass through `_rate_limit`'s body. -/
inductive RLOutcome where
  | acquired (s : RLState)
  | sleep (d : ℚ) (s : RLState)
deriving DecidableEq, Repr

/-- One pass through `_rate_limit` (lines 46-57): refill, then either
consume one token, or — when the bucket is empty — sleep
`1.0 / rate_limit_per_sec` seconds and recurse. -/
def rateLimitOnce (cap : ℕ) (s : RLState) (now : ℚ) : RLOutcome :=
  let s' := refillState cap s now
  if s'.tokens = 0 then .sleep (1 / cap) s'
  else .acquired { s' with tokens := s'.tokens - 1 }

/-- `IngestionService._rate_limit` run against an explicit sequence of
wall-clock readings, one per pass (the source reads
`datetime.now(tz=timezone.utc)` at each entry); `none` means the given
readings were exhausted before a token was obtained. -/
def acquire (cap : ℕ) : RLState → List ℚ → Option RLState
  | _, [] => none
  | s, now :: rest =>
    match rateLimitOnce cap s now with
    | .acquired s' => some s'
    | .sleep _ s' => acquire cap s' rest

/-! ### Helper lemmas -/

/-- The executable `Rat.floor` agrees with the `Int.floor` of the
`FloorRing` structure on `ℚ`. -/
theorem ratFloor_eq_intFloor (q : ℚ) : Rat.floor q = ⌊q⌋ :=
  (Rat.floor_def' q).trans Rat.floor_def.symm

/-- Unfolding the failure loop from the far end: `n + 1` failures are
`n` failures followed by one more. -/
theorem failLoopSteps_add_one (m n : ℕ) (s : FailState α) :
    failLoopSteps m (n + 1) s = failStep m (failLoopSteps m n s) := by
  induction n generalizing s with
  | zero => rfl
  | succ k ih =>
    show failLoopSteps m (k + 1) (failStep m s) = _
    rw [ih (failStep m s)]
    rfl

/-- Below the threshold the loop only counts: from a fresh-count state,
`n` failures with `j + n < m` leave the providers alone and set the
attempt counter to `j + n`. -/
theorem failLoopSteps_count (m : ℕ) (p f : α) :
    ∀ n j, j + n < m →
      failLoopSteps m n ⟨p, f, j⟩ = ⟨p, f, j + n⟩ := by
  intro n
  induction n with
  | zero => intro j _; rfl
  | succ k ih =>
    intro j hj
    show failLoopSteps m k (failStep m ⟨p, f, j⟩) = _
    have hlt : ¬ m ≤ j + 1 := by omega
    have hstep : failStep m (⟨p, f, j⟩ : FailState α) = ⟨p, f, j + 1⟩ := by
      simp [failStep, hlt]
    rw [hstep, ih (j + 1) (by omega)]
    congr 1
    omega

/-- Looking up the key just set finds the value just set. -/
theorem dictGet_dictSet_self (l : List (String × α)) (k : String) (v : α) :
    dictGet (dictSet l k v) k = some v := by
  induction l with
  | nil => simp [dictGet, dictSet]
  | cons hd tl ih =>
    by_cases h : hd.1 = k
    · simp [dictGet, dictSet, h]
    · simp [dictGet, dictSet, h, ih]

/-- Setting one key does not change what other keys map to. -/
theorem dictGet_dictSet_ne (l : List (String × α)) (k k' : String) (v : α)
    (h : k ≠ k') : dictGet (dictSet l k v) k' = dictGet l k' := by
  induction l with
  | nil => simp [dictGet, dictSet, h]
  | cons hd tl ih =>
    by_cases hh : hd.1 = k
    · simp [dictGet, dictSet, hh, h]
    · simp [dictGet, dictSet, hh, ih]

/-- Setting an absent key appends one entry. -/
theorem dictSet_length_fresh (l : List (String × α)) (k : String) (v : α)
    (h : dictGet l k = none) :
    (dictSet l k v).length = l.length + 1 := by
  induction l with
  | nil => simp [dictSet]
  | cons hd tl ih =>
    by_cases hh : hd.1 = k
    · simp [dictGet, hh] at h
    · simp only [dictGet, hh, if_false] at h
      simp [dictSet, hh, ih h]

/-- An entry of `dictSet l k v` is an entry of `l` or carries key `k`. -/
theorem mem_dictSet (l : List (String × α)) (k : String) (v : α)
    (p : String × α) (hp : p ∈ dictSet l k v) : p ∈ l ∨ p.1 = k := by
  induction l with
  | nil =>
    simp only [dictSet, List.mem_singleton] at hp
    right
    rw [hp]
  | cons hd tl ih =>
    by_cases hh : hd.1 = k
    · simp only [dictSet, hh, if_true, List.mem_cons] at hp
      rcases hp with hp | hp
      · right; rw [hp]
      · left; exact List.mem_cons_of_mem hd hp
    · simp only [dictSet, hh, if_false, List.mem_cons] at hp
      rcases hp with hp | hp
      · left; rw [hp]; exact List.mem_cons_self hd tl
      · rcases ih hp with h | h
        · left; exact List.mem_cons_of_mem hd h
        · right; exact h

/-- `dictSet` keeps the key set duplicate-free. -/
theorem dictSet_nodup_keys (l : List (String × α)) (k : String) (v : α)
    (h : (l.map Prod.fst).Nodup) :
    ((dictSet l k v).map Prod.fst).Nodup := by
  induction l with
  | nil => simp [dictSet]
  | cons hd tl ih =>
    simp only [List.map_cons, List.nodup_cons] at h
    by_cases hh : hd.1 = k
    · simp only [dictSet, hh, if_true, List.map_cons, List.nodup_cons]
      refine ⟨fun hmem => ?_, h.2⟩
      exact h.1 (hh ▸ hmem)
    · simp only [dictSet, hh, if_false, List.map_cons, List.nodup_cons]
      refine ⟨fun hmem => ?_, ih h.2⟩
      rcases List.mem_map.mp hmem with ⟨p, hp, hfst⟩
      rcases mem_dictSet tl k v p hp with hq | hq
      · exact h.1 (hfst ▸ List.mem_map_of_mem Prod.fst hq)
      · exact hh (hfst ▸ hq ▸ rfl)

/-- `insert_transfer` on a present key is a no-op returning `false`. -/
theorem insert_transfer_present (db : InMemoryDB) (e : TransferEvent)
    (h : (dictGet db.transfers (tkey e)).isSome = true) :
    db.insert_transfer e = (false, db) := by
  unfold InMemoryDB.insert_transfer
  simp [h]

/-- `insert_transfer` on an absent key returns `true` and stores the
event under its key. -/
theorem insert_transfer_fresh (db : InMemoryDB) (e : TransferEvent)
    (h : dictGet db.transfers (tkey e) = none) :
    (db.insert_transfer e).1 = true ∧
    (db.insert_transfer e).2.transfers = dictSet db.transfers (tkey e) e := by
  unfold InMemoryDB.insert_transfer
  simp [h]

/-- A cache-level duplicate short-circuits `_handle_event`: the state —
store, metrics, call trace — is returned untouched. -/
theorem handleEvent_cache_hit (ops : StoreOps σ) (now : ℚ) (st : SvcState σ)
    (e : TransferEvent) (h : eventKey e ∈ st.seen) :
    handleEvent ops now st e = .ok st := by
  unfold handleEvent
  simp [h]

/-- When the store insert raises, `_handle_event` re-raises after the
cache was already extended with the event's key. -/
theorem handleEvent_insert_err (ops : StoreOps σ) (now : ℚ) (st : SvcState σ)
    (e : TransferEvent) (er : StoreErr)
    (hseen : eventKey e ∉ st.seen)
    (hraise : ops.insert_transfer st.db e = .error er) :
    handleEvent ops now st e =
      .err er { st with
                  seen := eventKey e :: st.seen
                  calls := .insertT e :: st.calls } := by
  unfold handleEvent
  rw [if_neg hseen]
  simp only []
  rw [show ({ st with seen := (eventKey e :: st.seen), calls := (.insertT e :: st.calls) } : SvcState σ).db = st.db from rfl] at *
  rw [hraise]

/-- Accepted path of `_handle_event` over the in-memory store: fresh
cache key and fresh store key lead to the insert, the two balance legs,
the `events_out` bump, and the closing metrics. -/
theorem handleEvent_mem_accepted (now : ℚ) (st : SvcState InMemoryDB)
    (e : TransferEvent)
    (hseen : eventKey e ∉ st.seen)
    (hfresh : dictGet st.db.transfers (tkey e) = none) :
    handleEvent memOps now st e = .ok (finishMetrics now e
      { seen := eventKey e :: st.seen
        db := ((st.db.insert_transfer e).2.upsert_balance
          (debitLeg e)).upsert_balance (creditLeg e)
        metrics := st.metrics.inc "events_out" 1
        calls := .upsertB (creditLeg e) :: .upsertB (debitLeg e) ::
          .insertT e :: st.calls
        requests := st.requests }) := by
  have h1 : (st.db.insert_transfer e).1 = true :=
    (insert_transfer_fresh st.db e hfresh).1
  have hp : st.db.insert_transfer e = (true, (st.db.insert_transfer e).2) := by
    rw [← h1]
  unfold handleEvent
  rw [if_neg hseen]
  simp only [memOps]
  rw [show ({ st with seen := (eventKey e :: st.seen), calls := (.insertT e :: st.calls) } : SvcState InMemoryDB).db = st.db from rfl]
  rw [hp]
  simp

/-- Store-collision path of `_handle_event` over the in-memory store:
fresh cache key but present store key — no balance legs, no
`events_out`, only the closing metrics. -/
theorem handleEvent_mem_collision (now : ℚ) (st : SvcState InMemoryDB)
    (e : TransferEvent)
    (hseen : eventKey e ∉ st.seen)
    (hdup : (dictGet st.db.transfers (tkey e)).isSome = true) :
    handleEvent memOps now st e = .ok (finishMetrics now e
      { st with
          seen := eventKey e :: st.seen
          calls := .insertT e :: st.calls }) := by
  have hp := insert_transfer_present st.db e hdup
  unfold handleEvent
  rw [if_neg hseen]
  simp only [memOps]
  rw [show ({ st with seen := (eventKey e :: st.seen), calls := (.insertT e :: st.calls) } : SvcState InMemoryDB).db = st.db from rfl]
  rw [hp]
  simp

/-- Incrementing a counter adds to its value. -/
theorem counter_inc_self (m : Metrics) (name : String) (v : ℕ) :
    (m.inc name v).counter name = m.counter name + v := by
  unfold Metrics.inc Metrics.counter
  rw [dictGet_dictSet_self]
  rfl

/-- Incrementing one counter leaves the others alone. -/
theorem counter_inc_ne (m : Metrics) (n1 n2 : String) (v : ℕ) (h : n1 ≠ n2) :
    (m.inc n1 v).counter n2 = m.counter n2 := by
  unfold Metrics.inc Metrics.counter
  rw [dictGet_dictSet_ne _ _ _ _ h]

/-- `inc` records no observation. -/
theorem observations_inc (m : Metrics) (name : String) (v : ℕ) :
    (m.inc name v).observations = m.observations := rfl

/-- `observe` touches no counter. -/
theorem counter_observe (m : Metrics) (name n : String) (v : ℚ) :
    (m.observe name v).counter n = m.counter n := rfl

/-- What the closing metrics of `_handle_event` do to the metrics
state. -/
theorem finishMetrics_metrics (now : ℚ) (e : TransferEvent) (st : SvcState σ) :
    (finishMetrics now e st).metrics =
      (st.metrics.inc "events_in" 1).observe "lag_ms" ((lagMs now e.ts : ℤ) : ℚ) := rfl

/-- The closing metrics leave every non-metrics field alone. -/
theorem finishMetrics_fields (now : ℚ) (e : TransferEvent) (st : SvcState σ) :
    (finishMetrics now e st).seen = st.seen ∧
    (finishMetrics now e st).db = st.db ∧
    (finishMetrics now e st).calls = st.calls ∧
    (finishMetrics now e st).requests = st.requests :=
  ⟨rfl, rfl, rfl, rfl⟩

/-- Any event that is not a cache-level duplicate — newly inserted or a
store-level collision — runs the closing metrics: the cache gains the
key, `events_in` grows by one and a clamped lag observation is made. -/
theorem handleEvent_metrics_nondup (now : ℚ) (st : SvcState InMemoryDB)
    (e : TransferEvent) (hseen : eventKey e ∉ st.seen) :
    ∃ st', handleEvent memOps now st e = .ok st' ∧
      st'.seen = eventKey e :: st.seen ∧
      st'.metrics.counter "events_in" = st.metrics.counter "events_in" + 1 ∧
      st'.metrics.observations =
        ("lag_ms", ((lagMs now e.ts : ℤ) : ℚ)) :: st.metrics.observations ∧
      0 ≤ lagMs now e.ts := by
  rcases hcase : dictGet st.db.transfers (tkey e) with _ | v
  · refine ⟨_, handleEvent_mem_accepted now st e hseen hcase, rfl, ?_, rfl,
      le_max_left 0 _⟩
    rw [finishMetrics_metrics, counter_observe, counter_inc_self,
      counter_inc_ne _ _ _ _ (by decide)]
  · have hdup : (dictGet st.db.transfers (tkey e)).isSome = true := by
      rw [hcase]
      rfl
    refine ⟨_, handleEvent_mem_collision now st e hseen hdup, rfl, ?_, rfl,
      le_max_left 0 _⟩
    rw [finishMetrics_metrics, counter_observe, counter_inc_self]

/-- `_handle_event` never issues a backfill request: the `requests`
trace is untouched on every path, raised or not. -/
theorem handleEvent_requests (ops : StoreOps σ) (now : ℚ) (st : SvcState σ)
    (e : TransferEvent) :
    (handleEvent ops now st e).state.requests = st.requests := by
  unfold handleEvent
  dsimp only
  repeat' split <;> try rfl

/-- The event loop never issues a backfill request either. -/
theorem feedEvents_requests (ops : StoreOps σ) (now : ℚ) :
    ∀ (events : List TransferEvent) (st : SvcState σ),
      (feedEvents ops now st events).state.requests = st.requests := by
  intro events
  induction events with
  | nil => intro st; rfl
  | cons e rest ih =>
    intro st
    show (match handleEvent ops now st e with
      | .ok st' => feedEvents ops now st' rest
      | .err er st' => .err er st').state.requests = st.requests
    rcases h : handleEvent ops now st e with st' | ⟨er, st'⟩
    · have hr : st'.requests = st.requests := by
        have := handleEvent_requests ops now st e
        rw [h] at this
        exact this
      rw [← hr]
      exact ih st'
    · have := handleEvent_requests ops now st e
      rw [h] at this
      exact this

/-- Every request the provider loop of `_backfill` issues carries
exactly the planned `[start, horizon)` window. -/
theorem tryProviders_requests (ops : StoreOps σ) (now start horizon : ℚ)
    (chain : String) :
    ∀ (provs : List BackfillProvider) (st : SvcState σ) (r : ℚ × ℚ),
      r ∈ (tryProviders ops now start horizon chain st provs).requests →
      r ∈ st.requests ∨ r = (start, horizon) := by
  intro provs
  induction provs with
  | nil => intro st r hr; exact Or.inl hr
  | cons p rest ih =>
    intro st r hr
    rw [show tryProviders ops now start horizon chain st (p :: rest) =
      (match p chain start horizon with
      | .error _ => tryProviders ops now start horizon chain
          { st with requests := ((start, horizon) :: st.requests) } rest
      | .ok events =>
        match feedEvents ops now
            { st with requests := ((start, horizon) :: st.requests) } events with
        | .ok st2 => st2
        | .err _ st2 => tryProviders ops now start horizon chain st2 rest) from rfl] at hr
    rcases hp : p chain start horizon with er | events
    · rw [hp] at hr
      dsimp only at hr
      rcases ih _ r hr with hmem | heq
      · rcases List.mem_cons.mp hmem with h1 | h1
        · exact Or.inr h1
        · exact Or.inl h1
      · exact Or.inr heq
    · rw [hp] at hr
      dsimp only at hr
      rcases hf : feedEvents ops now
          { st with requests := ((start, horizon) :: st.requests) } events with st2 | ⟨er, st2⟩
      · have hr2 : st2.requests = (start, horizon) :: st.requests := by
          have hq := feedEvents_requests ops now events
            { st with requests := ((start, horizon) :: st.requests) }
          rw [hf] at hq
          exact hq
        rw [hf] at hr
        dsimp only at hr
        rw [hr2] at hr
        rcases List.mem_cons.mp hr with h1 | h1
        · exact Or.inr h1
        · exact Or.inl h1
      · have hr2 : st2.requests = (start, horizon) :: st.requests := by
          have hq := feedEvents_requests ops now events
            { st with requests := ((start, horizon) :: st.requests) }
          rw [hf] at hq
          exact hq
        rw [hf] at hr
        dsimp only at hr
        rcases ih st2 r hr with hmem | heq
        · rw [hr2] at hmem
          rcases List.mem_cons.mp hmem with h1 | h1
          · exact Or.inr h1
          · exact Or.inl h1
        · exact Or.inr heq

/-- A produced backfill window is exactly
`(planStart, planHorizon)` with `planStart < planHorizon`. -/
theorem backfillPlan_some (now lag window : ℚ) (last : Option ℚ) (s h : ℚ)
    (heq : backfillPlan now lag window last = some (s, h)) :
    s = planStart now window last ∧ h = planHorizon now lag ∧
    planStart now window last < planHorizon now lag := by
  unfold backfillPlan at heq
  dsimp only at heq
  by_cases hc : planHorizon now lag ≤ planStart now window last
  · rw [if_pos hc] at heq
    cases heq
  · rw [if_neg hc] at heq
    injection heq with h2
    rw [Prod.mk.injEq] at h2
    exact ⟨h2.1.symm, h2.2.symm, not_le.mp hc⟩

/-- Setting a present key replaces in place: the dict size is
unchanged. -/
theorem dictSet_length_mem (l : List (String × α)) (k : String) (v : α)
    (h : (dictGet l k).isSome = true) :
    (dictSet l k v).length = l.length := by
  induction l with
  | nil => simp [dictGet] at h
  | cons hd tl ih =>
    by_cases hh : hd.1 = k
    · simp [dictSet, hh]
    · simp only [dictGet, hh, if_false] at h
      simp [dictSet, hh, ih h]

/-- `insert_transfer` never touches the balances dict. -/
theorem insert_transfer_balances (db : InMemoryDB) (e : TransferEvent) :
    (db.insert_transfer e).2.balances = db.balances := by
  unfold InMemoryDB.insert_transfer
  dsimp only
  split <;> rfl

/-- `pyInt` of a non-negative rational is non-negative. -/
theorem pyInt_nonneg (q : ℚ) (h : 0 ≤ q) : 0 ≤ pyInt q := by
  unfold pyInt
  rw [if_neg (not_lt.mpr h), ratFloor_eq_intFloor]
  exact Int.floor_nonneg.mpr h

/-- `pyInt` of a rational at least 1 is positive. -/
theorem pyInt_pos_of_one_le (q : ℚ) (h : 1 ≤ q) : 0 < pyInt q := by
  unfold pyInt
  rw [if_neg (not_lt.mpr (by linarith : (0 : ℚ) ≤ q)), ratFloor_eq_intFloor]
  have h1 : (1 : ℤ) ≤ ⌊q⌋ := by
    rw [Int.le_floor]
    exact_mod_cast h
  omega

/-- The refill step never exceeds the capacity. -/
theorem refillState_tokens_le (cap : ℕ) (s : RLState) (now : ℚ)
    (h : s.tokens ≤ cap) : (refillState cap s now).tokens ≤ cap := by
  unfold refillState
  dsimp only
  split
  · exact min_le_left _ _
  · exact h

/-- Under the bucket invariant, the refill step computes exactly the
spec's formula `min(capacity, tokens + floor(elapsed * capacity))`,
also when the computed refill is zero and the source skips the
assignment. -/
theorem refillState_formula (cap : ℕ) (s : RLState) (now : ℚ)
    (htok : s.tokens ≤ cap) (hle : s.lastRefill ≤ now) :
    (refillState cap s now).tokens =
      min cap (s.tokens + (pyInt ((now - s.lastRefill) * cap)).toNat) := by
  unfold refillState
  dsimp only
  split
  · rfl
  · rename_i hc
    have hnn : 0 ≤ pyInt ((now - s.lastRefill) * cap) :=
      pyInt_nonneg _ (mul_nonneg (by linarith) (by positivity))
    have h0 : pyInt ((now - s.lastRefill) * cap) = 0 := by omega
    rw [h0]
    omega

/-- A bucket left empty by the refill step was empty before and the
refill step was the identity (the refill amount was zero, so
`_last_refill` did not move). -/
theorem refillState_zero (cap : ℕ) (hcap : 1 ≤ cap) (s : RLState) (now : ℚ)
    (h : (refillState cap s now).tokens = 0) :
    refillState cap s now = s ∧ s.tokens = 0 := by
  unfold refillState at h ⊢
  dsimp only at h ⊢
  by_cases hc : 0 < pyInt ((now - s.lastRefill) * cap)
  · rw [if_pos hc] at h
    have h1 : 1 ≤ (pyInt ((now - s.lastRefill) * cap)).toNat := by omega
    exact absurd h (by
      show ¬ min cap (s.tokens + (pyInt ((now - s.lastRefill) * cap)).toNat) = 0
      omega)
  · rw [if_neg hc] at h ⊢
    exact ⟨rfl, h⟩

/-- An `acquired` outcome of one `_rate_limit` pass consumed exactly
one token off the refilled bucket and kept its refill stamp. -/
theorem rateLimitOnce_acquired (cap : ℕ) (s : RLState) (now : ℚ)
    (s1 : RLState) (h : rateLimitOnce cap s now = .acquired s1) :
    s1.tokens + 1 = (refillState cap s now).tokens ∧
    s1.lastRefill = (refillState cap s now).lastRefill := by
  unfold rateLimitOnce at h
  dsimp only at h
  split at h
  · cases h
  · rename_i hne
    injection h with h1
    rw [← h1]
    exact ⟨by dsimp only; omega, rfl⟩

/-- A `sleep` outcome of one `_rate_limit` pass sleeps exactly
`1 / capacity` seconds, leaves the refilled state, and happened only
because the refilled bucket was empty. -/
theorem rateLimitOnce_sleep (cap : ℕ) (s : RLState) (now : ℚ) (d : ℚ)
    (s1 : RLState) (h : rateLimitOnce cap s now = .sleep d s1) :
    d = 1 / cap ∧ s1 = refillState cap s now ∧
    (refillState cap s now).tokens = 0 := by
  unfold rateLimitOnce at h
  dsimp only at h
  split at h
  · rename_i hzero
    injection h with h1 h2
    exact ⟨h1.symm, h2.symm, hzero⟩
  · cases h

/-- Termination of `_rate_limit`: with at least one token of capacity,
a caller entering at `t1` returns after at most one sleep — by the
second wall-clock reading `t2`, which real time guarantees to be at
least `1 / capacity` later — and the bucket stays within capacity. -/
theorem acquire_two (cap : ℕ) (hcap : 1 ≤ cap) (s : RLState) (t1 t2 : ℚ)
    (htok : s.tokens ≤ cap) (ht1 : s.lastRefill ≤ t1)
    (ht2 : t1 + 1 / cap ≤ t2) :
    ∃ s', acquire cap s [t1, t2] = some s' ∧ s'.tokens ≤ cap := by
  rcases ho : rateLimitOnce cap s t1 with s1 | ⟨d, s1⟩
  · refine ⟨s1, ?_, ?_⟩
    · show acquire cap s [t1, t2] = some s1
      unfold acquire
      rw [ho]
    · obtain ⟨hplus, _⟩ := rateLimitOnce_acquired cap s t1 s1 ho
      have hle := refillState_tokens_le cap s t1 htok
      omega
  · obtain ⟨hd, hs1, hzero⟩ := rateLimitOnce_sleep cap s t1 d s1 ho
    obtain ⟨hrs, hstok⟩ := refillState_zero cap hcap s t1 hzero
    have hs1s : s1 = s := by rw [hs1, hrs]
    have hcpos : (0 : ℚ) < (cap : ℚ) := by
      have h0 : (0 : ℕ) < cap := by omega
      exact_mod_cast h0
    have hq : 1 ≤ (t2 - s.lastRefill) * (cap : ℚ) := by
      have h1 : 1 / (cap : ℚ) ≤ t2 - s.lastRefill := by linarith
      calc (1 : ℚ) = (1 / cap) * cap := by field_simp
        _ ≤ (t2 - s.lastRefill) * cap :=
            mul_le_mul_of_nonneg_right h1 (le_of_lt hcpos)
    have hpos : 0 < pyInt ((t2 - s.lastRefill) * cap) := pyInt_pos_of_one_le _ hq
    have hr2 : refillState cap s t2 =
        ⟨min cap (s.tokens + (pyInt ((t2 - s.lastRefill) * cap)).toNat), t2⟩ := by
      unfold refillState
      dsimp only
      rw [if_pos hpos]
    have htpos : ¬ (refillState cap s t2).tokens = 0 := by
      rw [hr2]
      have h1 : 1 ≤ (pyInt ((t2 - s.lastRefill) * cap)).toNat := by omega
      show ¬ min cap (s.tokens + (pyInt ((t2 - s.lastRefill) * cap)).toNat) = 0
      omega
    have ho2 : rateLimitOnce cap s t2 =
        .acquired ⟨(refillState cap s t2).tokens - 1,
          (refillState cap s t2).lastRefill⟩ := by
      unfold rateLimitOnce
      dsimp only
      rw [if_neg htpos]
    refine ⟨⟨(refillState cap s t2).tokens - 1,
      (refillState cap s t2).lastRefill⟩, ?_, ?_⟩
    · show acquire cap s [t1, t2] = _
      unfold acquire
      rw [ho, hs1s]
      show acquire cap s [t2] = _
      unfold acquire
      rw [ho2]
    · have hle := refillState_tokens_le cap s t2 htok
      dsimp only
      omega

/-- The retry loop never escapes the two providers and keeps the
attempt counter below the threshold. -/
theorem failLoopSteps_invariant (m : ℕ) (hm : 1 ≤ m) (p f : α) :
    ∀ (n : ℕ) (s : FailState α),
      ((s.primary = p ∧ s.fallback = f) ∨ (s.primary = f ∧ s.fallback = p)) →
      s.attempt < m →
      (((failLoopSteps m n s).primary = p ∧ (failLoopSteps m n s).fallback = f) ∨
        ((failLoopSteps m n s).primary = f ∧ (failLoopSteps m n s).fallback = p)) ∧
      (failLoopSteps m n s).attempt < m := by
  intro n
  induction n with
  | zero => intro s hpf ha; exact ⟨hpf, ha⟩
  | succ k ih =>
    intro s hpf ha
    show (((failLoopSteps m k (failStep m s)).primary = p ∧ _) ∨ _) ∧ _
    apply ih
    · unfold failStep
      dsimp only
      split
      · tauto
      · tauto
    · unfold failStep
      dsimp only
      split
      · exact hm
      · show s.attempt + 1 < m
        omega

end Ingest

/-- C6: in `_stream_with_failover`, starting from a fresh attempt
counter, the first `retry_max_attempts - 1` consecutive open failures
keep the primary provider and only count attempts; after
`retry_max_attempts` consecutive failures the next open attempt targets
the other provider (fallback has become primary) with the counter reset
to 0; and after any number of consecutive failures the loop is still
poised to attempt one of the two providers with a counter below the
threshold — there is no terminal failure state. -/
theorem c6_failover_swap (α : Type) (p f : α) (m : ℕ) (hm : 1 ≤ m) :
    (∀ n, n < m →
      Ingest.failLoopSteps m n ⟨p, f, 0⟩ = (⟨p, f, n⟩ : Ingest.FailState α)) ∧
    Ingest.failLoopSteps m m ⟨p, f, 0⟩ = (⟨f, p, 0⟩ : Ingest.FailState α) ∧
    (∀ n : ℕ,
      (((Ingest.failLoopSteps m n (⟨p, f, 0⟩ : Ingest.FailState α)).primary = p ∧
        (Ingest.failLoopSteps m n (⟨p, f, 0⟩ : Ingest.FailState α)).fallback = f) ∨
       ((Ingest.failLoopSteps m n (⟨p, f, 0⟩ : Ingest.FailState α)).primary = f ∧
        (Ingest.failLoopSteps m n (⟨p, f, 0⟩ : Ingest.FailState α)).fallback = p)) ∧
      (Ingest.failLoopSteps m n (⟨p, f, 0⟩ : Ingest.FailState α)).attempt < m) := by
  refine ⟨?_, ?_, ?_⟩
  · intro n hn
    have h := Ingest.failLoopSteps_count m p f n 0 (by omega)
    simpa using h
  · obtain ⟨k, rfl⟩ : ∃ k, m = k + 1 := ⟨m - 1, by omega⟩
    rw [Ingest.failLoopSteps_add_one]
    rw [Ingest.failLoopSteps_count (k + 1) p f k 0 (by omega)]
    simp [Ingest.failStep]
  · intro n
    exact Ingest.failLoopSteps_invariant m hm p f n ⟨p, f, 0⟩ (by simp) (by simpa using hm)

/-- Witness for C6 at `retry_max_attempts = 3` with two named
providers: three consecutive failures swap primary and fallback and
reset the counter. -/
theorem c6_failover_swap_witness :
    1 ≤ 3 ∧
    Ingest.failLoopSteps 3 3 ⟨"alchemy", "moralis", 0⟩ =
      (⟨"moralis", "alchemy", 0⟩ : Ingest.FailState String) := by
  have h := c6_failover_swap String "alchemy" "moralis" 3 (by norm_num)
  exact ⟨by norm_num, h.2.1⟩

/-- C7: `_jitter_delay` computes exactly
`min(max_seconds, base * 2 ^ attempt + u)` for the sampled jitter
`u ∈ [0, base]`; the delay never exceeds `max_seconds`; whenever
`base * 2 ^ n + base ≤ max_seconds` the delay lies within
`[base * 2 ^ n, base * 2 ^ n + base]`; and the lower bound
`base * 2 ^ n` is non-decreasing in `n`. -/
theorem c7_backoff_bounds (base max_seconds u : ℚ) (n : ℕ)
    (hb : 0 ≤ base) (hu0 : 0 ≤ u) (hub : u ≤ base) :
    Ingest.jitterDelay base n max_seconds u = min max_seconds (base * 2 ^ n + u) ∧
    Ingest.jitterDelay base n max_seconds u ≤ max_seconds ∧
    (base * 2 ^ n + base ≤ max_seconds →
      base * 2 ^ n ≤ Ingest.jitterDelay base n max_seconds u ∧
      Ingest.jitterDelay base n max_seconds u ≤ base * 2 ^ n + base) ∧
    base * 2 ^ n ≤ base * 2 ^ (n + 1) := by
  refine ⟨rfl, min_le_left _ _, ?_, ?_⟩
  · intro h
    constructor
    · exact le_min (by linarith) (by linarith)
    · exact le_trans (min_le_right _ _) (by linarith)
  · have h2 : (2 : ℚ) ^ n ≤ 2 ^ (n + 1) := by
      have := pow_le_pow_right₀ (a := (2 : ℚ)) (by norm_num) (Nat.le_succ n)
      exact this
    exact mul_le_mul_of_nonneg_left h2 hb

/-- Witness for C7 at `base = 1`, `attempt = 2`, `max_seconds = 15`,
`u = 1/2`. -/
theorem c7_backoff_bounds_witness :
    (0 : ℚ) ≤ 1 ∧ (0 : ℚ) ≤ 1 / 2 ∧ (1 / 2 : ℚ) ≤ 1 ∧
    Ingest.jitterDelay 1 2 15 (1 / 2) = min 15 (1 * 2 ^ 2 + 1 / 2) := by
  have h := c7_backoff_bounds 1 15 (1 / 2) 2 (by norm_num) (by norm_num) (by norm_num)
  exact ⟨by norm_num, by norm_num, by norm_num, h.1⟩

/-- A transfer event whose identity-tuple fields carry upper-case
letters. -/
def c1e1 : Ingest.TransferEvent :=
  { ts := 100, tx_hash := "0xABC", from_addr := "0xFrom", to_addr := "0xTo",
    chain := "Ethereum", token := "ETH", amount := 1, usd_value := 2500 }

/-- The same event with the identity tuple lower-cased: it differs from
`c1e1` only in letter case. -/
def c1e2 : Ingest.TransferEvent :=
  { c1e1 with
      chain := "ethereum"
      tx_hash := "0xabc"
      from_addr := "0xfrom"
      to_addr := "0xto" }

/-- A re-submission of `c1e1` with the byte-identical identity tuple
but different timestamp and raw payload. -/
def c1e3 : Ingest.TransferEvent :=
  { c1e1 with ts := 200, raw := some [("n", "2")] }

/-- C1 (counterexample): the store layer does NOT honour
case-insensitive identity.  `c1e1` and `c1e2` have identity tuples
differing only in letter case, yet after inserting `c1e1` into an empty
`InMemoryDB`, `insert_transfer` for `c1e2` returns `true` and a second
transfer row exists — `InMemoryDB._tkey` hashes the raw strings without
case normalisation. -/
theorem c1_store_case_insensitive_cex :
    (Ingest.InMemoryDB.insert_transfer
      (Ingest.InMemoryDB.insert_transfer {} c1e1).2 c1e2).1 = true ∧
    (Ingest.InMemoryDB.insert_transfer
      (Ingest.InMemoryDB.insert_transfer {} c1e1).2 c1e2).2.transfers.length = 2 := by
  decide

/-- C1 (amended): store-layer idempotency honours exact (case-sensitive)
identity: for any two TransferEvents whose `_tkey` identity — the
4-tuple (chain, tx_hash, from_addr, to_addr) compared byte-for-byte —
coincides, inserting the second after the first was inserted returns
`false` and leaves the store unchanged, so no second transfer row is
created; case-insensitive identity is enforced only by the in-process
cache layer, not by the store alone. -/
theorem c1_store_idempotent_exact_identity (db : Ingest.InMemoryDB)
    (e1 e2 : Ingest.TransferEvent) (h : Ingest.tkey e2 = Ingest.tkey e1) :
    (Ingest.InMemoryDB.insert_transfer
      (Ingest.InMemoryDB.insert_transfer db e1).2 e2).1 = false ∧
    (Ingest.InMemoryDB.insert_transfer
      (Ingest.InMemoryDB.insert_transfer db e1).2 e2).2 =
      (Ingest.InMemoryDB.insert_transfer db e1).2 := by
  have hsome : (Ingest.dictGet (Ingest.InMemoryDB.insert_transfer db e1).2.transfers
      (Ingest.tkey e2)).isSome = true := by
    rw [h]
    rcases hcase : Ingest.dictGet db.transfers (Ingest.tkey e1) with _ | v
    · have hf := Ingest.insert_transfer_fresh db e1 hcase
      rw [hf.2, Ingest.dictGet_dictSet_self]
      rfl
    · have hp := Ingest.insert_transfer_present db e1 (by rw [hcase]; rfl)
      rw [hp]
      simp [hcase]
  have hstop := Ingest.insert_transfer_present _ e2 hsome
  rw [hstop]
  exact ⟨rfl, rfl⟩

/-- Witness for the amended C1: re-submitting `c1e1`'s identity tuple
as `c1e3` (different timestamp, different payload) is rejected by the
store. -/
theorem c1_store_idempotent_exact_identity_witness :
    Ingest.tkey c1e3 = Ingest.tkey c1e1 ∧
    (Ingest.InMemoryDB.insert_transfer
      (Ingest.InMemoryDB.insert_transfer {} c1e1).2 c1e3).1 = false := by
  have h := c1_store_idempotent_exact_identity {} c1e1 c1e3 (by decide)
  exact ⟨by decide, h.1⟩

/-- The service state at start-up: empty cache, empty in-memory store,
no metrics, no store calls. -/
def svc0 : Ingest.SvcState Ingest.InMemoryDB := { db := {} }

/-- C2: for every TransferEvent that passes the cache and whose store
insert returns `true`, the admission pipeline derives exactly two
BalanceUpdate records — the debit leg at `from_addr` and the credit leg
at `to_addr` — persists both via `upsert_balance` (in that order, as
the only two balance writes), and the legs satisfy
`credit.amount == -debit.amount` and
`credit.usd_value == -debit.usd_value`. -/
theorem c2_balance_conservation (now : ℚ) (st : Ingest.SvcState Ingest.InMemoryDB)
    (e : Ingest.TransferEvent)
    (hseen : Ingest.eventKey e ∉ st.seen)
    (hfresh : Ingest.dictGet st.db.transfers (Ingest.tkey e) = none) :
    ∃ st', Ingest.handleEvent Ingest.memOps now st e = .ok st' ∧
      st'.calls = .upsertB (Ingest.creditLeg e) :: .upsertB (Ingest.debitLeg e) ::
        .insertT e :: st.calls ∧
      st'.db = ((st.db.insert_transfer e).2.upsert_balance
        (Ingest.debitLeg e)).upsert_balance (Ingest.creditLeg e) ∧
      (Ingest.creditLeg e).amount = -(Ingest.debitLeg e).amount ∧
      (Ingest.creditLeg e).usd_value = -(Ingest.debitLeg e).usd_value ∧
      (Ingest.debitLeg e).address = e.from_addr ∧
      (Ingest.creditLeg e).address = e.to_addr := by
  refine ⟨_, Ingest.handleEvent_mem_accepted now st e hseen hfresh,
    rfl, rfl, ?_, ?_, rfl, rfl⟩
  · simp [Ingest.creditLeg, Ingest.debitLeg]
  · simp [Ingest.creditLeg, Ingest.debitLeg]

/-- Witness for C2: the first event admitted into a fresh service. -/
theorem c2_balance_conservation_witness :
    ∃ st', Ingest.handleEvent Ingest.memOps 150 svc0 c1e1 = .ok st' ∧
      st'.calls = .upsertB (Ingest.creditLeg c1e1) :: .upsertB (Ingest.debitLeg c1e1) ::
        .insertT c1e1 :: svc0.calls ∧
      st'.db = ((svc0.db.insert_transfer c1e1).2.upsert_balance
        (Ingest.debitLeg c1e1)).upsert_balance (Ingest.creditLeg c1e1) ∧
      (Ingest.creditLeg c1e1).amount = -(Ingest.debitLeg c1e1).amount ∧
      (Ingest.creditLeg c1e1).usd_value = -(Ingest.debitLeg c1e1).usd_value ∧
      (Ingest.debitLeg c1e1).address = c1e1.from_addr ∧
      (Ingest.creditLeg c1e1).address = c1e1.to_addr :=
  c2_balance_conservation 150 svc0 c1e1 (by decide) rfl

/-- The service state after `c1e1` was admitted once at time 200. -/
def c5st1 : Ingest.SvcState Ingest.InMemoryDB :=
  (Ingest.handleEvent Ingest.memOps 200 svc0 c1e1).state

/-- C5 (counterexample): a cache-level duplicate emits NO metrics.
After `c1e1` was admitted once (`events_in = 1`, one lag observation),
resubmitting it returns the state completely unchanged: `events_in`
stays 1 instead of becoming 2 and no second lag observation is made,
because `_handle_event` returns before its metrics lines when the key
is in the seen-cache. -/
theorem c5_cache_duplicate_no_metrics_cex :
    Ingest.handleEvent Ingest.memOps 300 c5st1 c1e1 = .ok c5st1 ∧
    c5st1.metrics.counter "events_in" = 1 ∧
    c5st1.metrics.observations.length = 1 := by
  obtain ⟨st', h1, hseen1, hcount, hobs, _⟩ :=
    Ingest.handleEvent_metrics_nondup 200 svc0 c1e1 (by simp [svc0])
  have hst : c5st1 = st' := by
    unfold c5st1
    rw [h1]
    rfl
  refine ⟨?_, ?_, ?_⟩
  · apply Ingest.handleEvent_cache_hit
    rw [hst, hseen1]
    exact List.mem_cons_self _ _
  · rw [hst, hcount]
    rfl
  · rw [hst, hobs]
    rfl

/-- C5 (amended): for every event that is not an in-process cache-level
duplicate — whether newly inserted or a store-level idempotency
collision — the pipeline increments `events_in` by one and observes a
`lag_ms` value equal to `now - event.ts` in milliseconds clamped
to `>= 0`; cache-level duplicates are discarded before any metric is
emitted. -/
theorem c5_metrics_on_admitted (now : ℚ) (st : Ingest.SvcState Ingest.InMemoryDB)
    (e : Ingest.TransferEvent) (hseen : Ingest.eventKey e ∉ st.seen) :
    ∃ st', Ingest.handleEvent Ingest.memOps now st e = .ok st' ∧
      st'.metrics.counter "events_in" = st.metrics.counter "events_in" + 1 ∧
      st'.metrics.observations =
        ("lag_ms", ((Ingest.lagMs now e.ts : ℤ) : ℚ)) :: st.metrics.observations ∧
      0 ≤ Ingest.lagMs now e.ts := by
  obtain ⟨st', h1, _, hcount, hobs, hlag⟩ :=
    Ingest.handleEvent_metrics_nondup now st e hseen
  exact ⟨st', h1, hcount, hobs, hlag⟩

/-- Witness for the amended C5: a fresh event through a fresh service. -/
theorem c5_metrics_on_admitted_witness :
    ∃ st', Ingest.handleEvent Ingest.memOps 300 svc0 c1e2 = .ok st' ∧
      st'.metrics.counter "events_in" = svc0.metrics.counter "events_in" + 1 ∧
      st'.metrics.observations =
        ("lag_ms", ((Ingest.lagMs 300 c1e2.ts : ℤ) : ℚ)) :: svc0.metrics.observations ∧
      0 ≤ Ingest.lagMs 300 c1e2.ts :=
  c5_metrics_on_admitted 300 svc0 c1e2 (by decide)

/-- A store whose `insert_transfer` always raises (models a database
outage), with no stored history. -/
def failOps : Ingest.StoreOps Unit where
  insert_transfer _ _ := .error (.failure "db down")
  upsert_balance db _ := .ok db
  latest_transfer_ts _ _ := none

/-- An event inside the backfill window `[900, 990)` of the C4
scenario. -/
def c4e : Ingest.TransferEvent :=
  { ts := 950, tx_hash := "0x01", from_addr := "a", to_addr := "b",
    chain := "ethereum", token := "ETH", amount := 1, usd_value := 1 }

/-- A backfill provider that returns exactly `[c4e]` for any request. -/
def c4prov : Ingest.BackfillProvider :=
  fun _ _ _ => .ok [c4e]

/-- A fresh service state over the always-failing store. -/
def c4st : Ingest.SvcState Unit := { db := () }

/-- `c4st` after the failed insert of `c4e`: key cached, one insert
attempted, nothing stored. -/
def c4stErr : Ingest.SvcState Unit :=
  { db := (), seen := [Ingest.eventKey c4e], calls := [.insertT c4e] }

/-- C9: the admission pipeline adds the event's identity key to the
in-process seen cache before calling `insert_transfer`; if the insert
raises, the raise propagates but the key stays cached even though
nothing was stored; and any later submission whose identity key is in
the cache is silently discarded, returning the state untouched — in
particular without any store call. -/
theorem c9_nonatomic_admission (σ : Type) (ops : Ingest.StoreOps σ) (now : ℚ)
    (st : Ingest.SvcState σ) (e : Ingest.TransferEvent) (er : Ingest.StoreErr)
    (hseen : Ingest.eventKey e ∉ st.seen)
    (hraise : ops.insert_transfer st.db e = .error er) :
    Ingest.handleEvent ops now st e =
      .err er { st with seen := (Ingest.eventKey e :: st.seen), calls := (.insertT e :: st.calls) } ∧
    Ingest.eventKey e ∈ (Ingest.handleEvent ops now st e).state.seen ∧
    (∀ (σ2 : Type) (ops2 : Ingest.StoreOps σ2) (now2 : ℚ)
        (st2 : Ingest.SvcState σ2) (e2 : Ingest.TransferEvent),
        Ingest.eventKey e2 ∈ st2.seen →
        Ingest.handleEvent ops2 now2 st2 e2 = .ok st2) := by
  have h1 := Ingest.handleEvent_insert_err ops now st e er hseen hraise
  refine ⟨h1, ?_, ?_⟩
  · rw [h1]
    exact List.mem_cons_self _ _
  · intro σ2 ops2 now2 st2 e2 h
    exact Ingest.handleEvent_cache_hit ops2 now2 st2 e2 h

/-- Witness for C9: the always-failing store raises out of the
pipeline with the key cached; resubmitting the event afterwards is
silently discarded. -/
theorem c9_nonatomic_admission_witness :
    Ingest.handleEvent failOps 1000 c4st c4e =
      .err (.failure "db down") { c4st with seen := (Ingest.eventKey c4e :: c4st.seen), calls := (.insertT c4e :: c4st.calls) } ∧
    Ingest.handleEvent failOps 1001 c4stErr c4e = .ok c4stErr := by
  have h := c9_nonatomic_admission Unit failOps 1000 c4st c4e
    (.failure "db down") (by simp [c4st]) rfl
  exact ⟨h.1, h.2.2 Unit failOps 1001 c4stErr c4e (List.mem_cons_self _ _)⟩

/-- C4 (divergence evidence): with a store whose `insert_transfer`
raises, the streaming loop propagates the error uncaught (first
conjunct: `feedEvents`, the loop of `_run_chain`, re-raises with the
partially mutated state), BUT the backfill path does not: `_backfill`
wraps the `_handle_event` loop in its provider `try/except`, so the
same persistence error is caught, the fallback provider is attempted
(two recorded requests over `[900, 990)`) and the run completes
normally — contradicting the claim that the error propagates uncaught
out of the backfill planner with no fallback-provider attempt. -/
theorem c4_backfill_swallows_persistence_error :
    Ingest.planStart 1000 100 none = 900 ∧
    Ingest.planHorizon 1000 10 = 990 ∧
    Ingest.feedEvents failOps 1000 c4st [c4e] =
      .err (.failure "db down") c4stErr ∧
    Ingest.backfillRun failOps [c4prov, c4prov] "ethereum" 1000 10 100 c4st =
      { c4stErr with requests := [(900, 990), (900, 990)] } := by
  have hstart : Ingest.planStart 1000 100 none = 900 := by
    unfold Ingest.planStart
    simp only [Option.getD_none]
    rw [max_self]
    norm_num
  have hhor : Ingest.planHorizon 1000 10 = 990 := by
    unfold Ingest.planHorizon
    norm_num
  have hplan : Ingest.backfillPlan 1000 10 100 none = some (900, 990) := by
    unfold Ingest.backfillPlan
    rw [hstart, hhor]
    norm_num
  have herr := Ingest.handleEvent_insert_err failOps 1000 c4st c4e
    (.failure "db down") (by simp [c4st]) rfl
  have hstream : Ingest.feedEvents failOps 1000 c4st [c4e] =
      .err (.failure "db down") c4stErr := by
    unfold Ingest.feedEvents
    rw [herr]
    rfl
  have herr1 := Ingest.handleEvent_insert_err failOps 1000
    ({ c4st with requests := ((900, 990) :: c4st.requests) }) c4e
    (.failure "db down") (by simp [c4st]) rfl
  have hhit := Ingest.handleEvent_cache_hit failOps 1000
    { seen := (Ingest.eventKey c4e :: c4st.seen), db := c4st.db, metrics := c4st.metrics, calls := (.insertT c4e :: c4st.calls), requests := ((900, 990) :: (900, 990) :: c4st.requests) } c4e
    (List.mem_cons_self _ _)
  dsimp only at herr1 hhit
  have hfeed1 : Ingest.feedEvents failOps 1000
      { seen := c4st.seen, db := c4st.db, metrics := c4st.metrics, calls := c4st.calls, requests := ((900, 990) :: c4st.requests) } [c4e] =
      .err (.failure "db down")
        { seen := (Ingest.eventKey c4e :: c4st.seen), db := c4st.db, metrics := c4st.metrics, calls := (.insertT c4e :: c4st.calls), requests := ((900, 990) :: c4st.requests) } := by
    unfold Ingest.feedEvents
    rw [herr1]
  have hfeed2 : Ingest.feedEvents failOps 1000
      { seen := (Ingest.eventKey c4e :: c4st.seen), db := c4st.db, metrics := c4st.metrics, calls := (.insertT c4e :: c4st.calls), requests := ((900, 990) :: (900, 990) :: c4st.requests) } [c4e] =
      .ok { seen := (Ingest.eventKey c4e :: c4st.seen), db := c4st.db, metrics := c4st.metrics, calls := (.insertT c4e :: c4st.calls), requests := ((900, 990) :: (900, 990) :: c4st.requests) } := by
    unfold Ingest.feedEvents
    rw [hhit]
    rfl
  refine ⟨hstart, hhor, hstream, ?_⟩
  unfold Ingest.backfillRun
  dsimp only
  rw [show failOps.latest_transfer_ts c4st.db "ethereum" = none from rfl]
  rw [hplan]
  show Ingest.tryProviders failOps 1000 900 990 "ethereum" c4st [c4prov, c4prov] = _
  unfold Ingest.tryProviders
  dsimp only
  rw [show c4prov "ethereum" 900 990 = .ok [c4e] from rfl]
  dsimp only
  rw [hfeed1]
  dsimp only
  unfold Ingest.tryProviders
  dsimp only
  rw [show c4prov "ethereum" 900 990 = .ok [c4e] from rfl]
  dsimp only
  rw [hfeed2]
  rfl

/-- C3: for every chain, with current time `now`, configured window and
lag, and store timestamp `last` (possibly absent), the planner uses
`horizon = now - lag` and `start = max(last or (now - window),
now - window)`, so `start >= last` (when present) and
`start >= now - window`; when `start < horizon` the plan is exactly the
window `[start, horizon)`, and every provider request a backfill run
issues carries exactly that window; when `start >= horizon` the plan is
empty and the run returns immediately with the state — in particular
the request trace — untouched (no provider call). -/
theorem c3_backfill_window (now lag window : ℚ) (last : Option ℚ) :
    (∀ T, last = some T → T ≤ Ingest.planStart now window last) ∧
    now - window ≤ Ingest.planStart now window last ∧
    Ingest.planHorizon now lag = now - lag ∧
    (Ingest.planStart now window last < Ingest.planHorizon now lag →
      Ingest.backfillPlan now lag window last =
        some (Ingest.planStart now window last, Ingest.planHorizon now lag)) ∧
    (Ingest.planHorizon now lag ≤ Ingest.planStart now window last →
      Ingest.backfillPlan now lag window last = none) ∧
    (∀ (σ : Type) (ops : Ingest.StoreOps σ) (provs : List Ingest.BackfillProvider)
        (chain : String) (st : Ingest.SvcState σ),
        ops.latest_transfer_ts st.db chain = last →
        ((Ingest.planHorizon now lag ≤ Ingest.planStart now window last →
            Ingest.backfillRun ops provs chain now lag window st = st) ∧
          ∀ r ∈ (Ingest.backfillRun ops provs chain now lag window st).requests,
            r ∈ st.requests ∨
              r = (Ingest.planStart now window last, Ingest.planHorizon now lag))) := by
  have hnone : Ingest.planHorizon now lag ≤ Ingest.planStart now window last →
      Ingest.backfillPlan now lag window last = none := by
    intro h
    unfold Ingest.backfillPlan
    dsimp only
    rw [if_pos h]
  refine ⟨?_, ?_, rfl, ?_, hnone, ?_⟩
  · intro T hT
    subst hT
    unfold Ingest.planStart
    simp only [Option.getD_some]
    exact le_max_left _ _
  · exact le_max_right _ _
  · intro h
    unfold Ingest.backfillPlan
    dsimp only
    rw [if_neg (not_le.mpr h)]
  · intro σ ops provs chain st hlast
    constructor
    · intro h
      unfold Ingest.backfillRun
      dsimp only
      rw [hlast, hnone h]
    · intro r hr
      unfold Ingest.backfillRun at hr
      dsimp only at hr
      rw [hlast] at hr
      rcases hcase : Ingest.backfillPlan now lag window last with _ | pair
      · rw [hcase] at hr
        exact Or.inl hr
      · rcases pair with ⟨s, h⟩
        rw [hcase] at hr
        dsimp only at hr
        obtain ⟨rfl, rfl, _⟩ := Ingest.backfillPlan_some now lag window last s h hcase
        exact Ingest.tryProviders_requests ops now _ _ chain provs st r hr

/-- Witness for C3 at `now = 100`, `lag = 10`, `window = 50`,
`last = 80`: the plan is `[80, 90)` with `start = 80 >= last` and
`start >= now - window = 50`. -/
theorem c3_backfill_window_witness :
    (80 : ℚ) ≤ Ingest.planStart 100 50 (some 80) ∧
    (100 : ℚ) - 50 ≤ Ingest.planStart 100 50 (some 80) ∧
    Ingest.backfillPlan 100 10 50 (some 80) =
      some (Ingest.planStart 100 50 (some 80), Ingest.planHorizon 100 10) := by
  have h := c3_backfill_window 100 10 50 (some 80)
  refine ⟨h.1 80 rfl, h.2.1, h.2.2.2.1 ?_⟩
  have hs : Ingest.planStart 100 50 (some 80) = 80 := by
    unfold Ingest.planStart
    simp only [Option.getD_some]
    rw [show (100 : ℚ) - 50 = 50 from by norm_num]
    exact max_eq_left (by norm_num)
  have hh : Ingest.planHorizon 100 10 = 90 := by
    unfold Ingest.planHorizon
    norm_num
  rw [hs, hh]
  norm_num

/-- C8: the rate limiter contract.  Conjunct 1 (termination and
success): entering `_rate_limit` with the bucket invariant and a
second wall-clock reading at least `1/capacity` later — which the
`asyncio.sleep(1.0 / rate_limit_per_sec)` guarantees — the call
returns a state, never fails, within the two readings.  Conjunct 2:
each pass first refills the bucket to exactly
`min(capacity, tokens + floor(elapsed * capacity))` (also when the
computed refill is 0 and the source skips the assignment), and the
token count stays at most `rate_limit_per_sec` (it is a natural
number, hence at least 0).  Conjunct 3: a successful pass consumes
exactly one token off the refilled bucket.  Conjunct 4: when no token
is available the caller suspends exactly `1/capacity` seconds and
re-checks. -/
theorem c8_rate_limiter (cap : ℕ) (s : Ingest.RLState) (t1 t2 : ℚ)
    (hcap : 1 ≤ cap) (htok : s.tokens ≤ cap)
    (ht1 : s.lastRefill ≤ t1) (ht2 : t1 + 1 / cap ≤ t2) :
    (∃ s', Ingest.acquire cap s [t1, t2] = some s' ∧ s'.tokens ≤ cap) ∧
    (∀ (s0 : Ingest.RLState) (now : ℚ), s0.tokens ≤ cap → s0.lastRefill ≤ now →
      (Ingest.refillState cap s0 now).tokens =
        min cap (s0.tokens + (Ingest.pyInt ((now - s0.lastRefill) * cap)).toNat) ∧
      (Ingest.refillState cap s0 now).tokens ≤ cap) ∧
    (∀ (s0 : Ingest.RLState) (now : ℚ) (s1 : Ingest.RLState),
      Ingest.rateLimitOnce cap s0 now = .acquired s1 →
      s1.tokens + 1 = (Ingest.refillState cap s0 now).tokens) ∧
    (∀ (s0 : Ingest.RLState) (now d : ℚ) (s1 : Ingest.RLState),
      Ingest.rateLimitOnce cap s0 now = .sleep d s1 → d = 1 / cap) := by
  refine ⟨Ingest.acquire_two cap hcap s t1 t2 htok ht1 ht2, ?_, ?_, ?_⟩
  · intro s0 now h1 h2
    exact ⟨Ingest.refillState_formula cap s0 now h1 h2,
      Ingest.refillState_tokens_le cap s0 now h1⟩
  · intro s0 now s1 h
    exact (Ingest.rateLimitOnce_acquired cap s0 now s1 h).1
  · intro s0 now d s1 h
    exact (Ingest.rateLimitOnce_sleep cap s0 now d s1 h).1

/-- Witness for C8: capacity 2, an empty bucket last refilled at time
0, checks at times 0 and 1. -/
theorem c8_rate_limiter_witness :
    ∃ s', Ingest.acquire 2 ⟨0, 0⟩ [0, 1] = some s' ∧ s'.tokens ≤ 2 :=
  (c8_rate_limiter 2 ⟨0, 0⟩ 0 1 (by norm_num) (by norm_num) (by norm_num)
    (by norm_num)).1

/-- C10: `upsert_balance` keys by the lower-cased `(chain, address,
token)` triple and replaces on collision — after any upsert, lookup at
the key returns the new record and a duplicate-free key set stays
duplicate-free, so at most one BalanceUpdate is retained per triple;
for an accepted transfer whose `from_addr` equals `to_addr` (same chain
and token), the two derived legs share one balance key, so only the
credit leg with amount `+|amount|` remains stored and the balances
dict grows by one entry, not two. -/
theorem c10_balance_overwrite (now : ℚ) (st : Ingest.SvcState Ingest.InMemoryDB)
    (e : Ingest.TransferEvent)
    (hseen : Ingest.eventKey e ∉ st.seen)
    (hfresh : Ingest.dictGet st.db.transfers (Ingest.tkey e) = none)
    (hself : e.from_addr = e.to_addr)
    (hbal : Ingest.dictGet st.db.balances (Ingest.bkey (Ingest.creditLeg e)) = none) :
    Ingest.bkey (Ingest.debitLeg e) = Ingest.bkey (Ingest.creditLeg e) ∧
    (∀ (db : Ingest.InMemoryDB) (b : Ingest.BalanceUpdate),
      Ingest.dictGet (db.upsert_balance b).balances (Ingest.bkey b) = some b ∧
      ((db.balances.map Prod.fst).Nodup →
        ((db.upsert_balance b).balances.map Prod.fst).Nodup)) ∧
    ∃ st', Ingest.handleEvent Ingest.memOps now st e = .ok st' ∧
      Ingest.dictGet st'.db.balances (Ingest.bkey (Ingest.creditLeg e)) =
        some (Ingest.creditLeg e) ∧
      (Ingest.creditLeg e).amount = |e.amount| ∧
      st'.db.balances.length = st.db.balances.length + 1 := by
  have hkey : Ingest.bkey (Ingest.debitLeg e) = Ingest.bkey (Ingest.creditLeg e) := by
    unfold Ingest.bkey Ingest.debitLeg Ingest.creditLeg
    dsimp only
    rw [hself]
  refine ⟨hkey, ?_, ?_⟩
  · intro db b
    constructor
    · unfold Ingest.InMemoryDB.upsert_balance
      exact Ingest.dictGet_dictSet_self _ _ _
    · intro hn
      unfold Ingest.InMemoryDB.upsert_balance
      exact Ingest.dictSet_nodup_keys _ _ _ hn
  · refine ⟨_, Ingest.handleEvent_mem_accepted now st e hseen hfresh, ?_, rfl, ?_⟩
    · show Ingest.dictGet (((st.db.insert_transfer e).2.upsert_balance
        (Ingest.debitLeg e)).upsert_balance (Ingest.creditLeg e)).balances
        (Ingest.bkey (Ingest.creditLeg e)) = some (Ingest.creditLeg e)
      unfold Ingest.InMemoryDB.upsert_balance
      dsimp only
      exact Ingest.dictGet_dictSet_self _ _ _
    · show (((st.db.insert_transfer e).2.upsert_balance
        (Ingest.debitLeg e)).upsert_balance (Ingest.creditLeg e)).balances.length =
        st.db.balances.length + 1
      unfold Ingest.InMemoryDB.upsert_balance
      dsimp only
      rw [Ingest.insert_transfer_balances]
      have h1 : Ingest.dictGet st.db.balances (Ingest.bkey (Ingest.debitLeg e)) = none := by
        rw [hkey]
        exact hbal
      have hlen1 : (Ingest.dictSet st.db.balances (Ingest.bkey (Ingest.debitLeg e))
          (Ingest.debitLeg e)).length = st.db.balances.length + 1 :=
        Ingest.dictSet_length_fresh _ _ _ h1
      have h2 : (Ingest.dictGet (Ingest.dictSet st.db.balances
          (Ingest.bkey (Ingest.debitLeg e)) (Ingest.debitLeg e))
          (Ingest.bkey (Ingest.creditLeg e))).isSome = true := by
        rw [← hkey, Ingest.dictGet_dictSet_self]
        rfl
      rw [Ingest.dictSet_length_mem _ _ _ h2, hlen1]

/-- A self-transfer: sender and receiver are the same address. -/
def c10e : Ingest.TransferEvent :=
  { ts := 100, tx_hash := "0xself", from_addr := "0xAA", to_addr := "0xAA",
    chain := "ethereum", token := "ETH", amount := -2, usd_value := 5 }

/-- Witness for C10: the self-transfer `c10e` through a fresh service
leaves exactly one balance row, the credit leg. -/
theorem c10_balance_overwrite_witness :
    Ingest.bkey (Ingest.debitLeg c10e) = Ingest.bkey (Ingest.creditLeg c10e) ∧
    (∀ (db : Ingest.InMemoryDB) (b : Ingest.BalanceUpdate),
      Ingest.dictGet (db.upsert_balance b).balances (Ingest.bkey b) = some b ∧
      ((db.balances.map Prod.fst).Nodup →
        ((db.upsert_balance b).balances.map Prod.fst).Nodup)) ∧
    ∃ st', Ingest.handleEvent Ingest.memOps 400 svc0 c10e = .ok st' ∧
      Ingest.dictGet st'.db.balances (Ingest.bkey (Ingest.creditLeg c10e)) =
        some (Ingest.creditLeg c10e) ∧
      (Ingest.creditLeg c10e).amount = |c10e.amount| ∧
      st'.db.balances.length = svc0.db.balances.length + 1 :=
  c10_balance_overwrite 400 svc0 c10e (by simp [svc0]) rfl rfl rfl
